import Mathlib

/-!
Verification development for the lurkcoin-core ledger.

Go strings are modelled as lists of unicode scalar values (`List Char`,
one entry per Go rune).  Monetary values (`Currency` in the source) are an
arbitrary-precision integer count of hundredths of a unit, modelled as `Int`.

The exchange-rate computation (`Server.GetExchangeRate`, servers.go) and the
unicode character primitives (`unicode.IsGraphic`, `strings.ToLower`) are
taken as oracle parameters: no claim below depends on more than a few
documented facts about them, which appear as explicit hypotheses or concrete
instantiations.
-/

set_option autoImplicit false

namespace Lurkcoin

/-- Go strings, one list entry per rune. -/
abbrev GoString := List Char

/-! ## Currency (part_006: currency.go)

A `Currency` is the wrapped `big.Int` (`raw`) counting hundredths; we carry
the bare `Int`. -/

/-- The transaction limit (payments.go:28): `CurrencyFromInt64(100000000000)`,
i.e. 10^11 units = 10^13 hundredths. -/
def transactionLimit : Int := 100000000000 * 100

/-- Decimal digit character for `n < 10`. -/
def digitChar (n : Nat) : Char := Char.ofNat (48 + n)

/-- Decimal digits of `n`, most significant first; fuel-indexed helper
(`fuel ≥ n` suffices since `n / 10 < n` for `n > 0`). -/
def natDecAux : Nat → Nat → List Char
  | 0, _ => []
  | fuel + 1, n =>
    if n = 0 then [] else natDecAux fuel (n / 10) ++ [digitChar (n % 10)]

/-- Decimal rendering of a natural number, mirroring `big.Int.String` for
non-negative values. -/
def natDecimal (n : Nat) : List Char :=
  if n = 0 then ['0'] else natDecAux (n + 1) n

/-- `Currency.RawString` (part_006 lines 37-58): sign, whole part
(`|raw| / 100`), a dot, and the fractional part (`|raw| % 100`) padded to two
digits.  `big.Int.DivMod` on the absolute value agrees with Nat div/mod. -/
def RawString (raw : Int) : GoString :=
  (if raw < 0 then ['-'] else []) ++
    natDecimal (raw.natAbs / 100) ++ ['.'] ++
    (if raw.natAbs % 100 < 10 then ['0'] else []) ++ natDecimal (raw.natAbs % 100)

/-- `Currency.MarshalJSON` (part_006 lines 164-172): `RawString` with a single
trailing `'0'` removed, if present. -/
def MarshalJSON (raw : Int) : GoString :=
  let res := RawString raw
  if res.getLast? = some '0' then res.dropLast else res

/-! Model of `big.Float` at precision 64 with rounding mode ToNearestEven
(the defaults used by `Currency.setString`: a zero-precision `big.Float` is
given precision 64 by `SetString`, and `Mul` on a fresh receiver takes the
larger operand precision, again 64).  Exact rational values are carried as
numerator/denominator pairs (`Frac`); every constructed value has a positive
denominator, which the comparison helpers rely on. -/

/-- An exact (unreduced) fraction; all constructions keep `den` positive. -/
structure Frac where
  num : Int
  den : Int
  deriving DecidableEq, Repr

/-- Negation of a fraction. -/
def fNeg (q : Frac) : Frac := ⟨-q.num, q.den⟩

/-- Multiplication of a fraction by an integer. -/
def fMulInt (q : Frac) (m : Int) : Frac := ⟨q.num * m, q.den⟩

/-- Floor of a fraction (`Int./` rounds toward negative infinity for the
positive denominators used here). -/
def fFloor (q : Frac) : Int := q.num / q.den

/-- Round a fraction to the nearest integer, ties to even
(`big.Float` mode `ToNearestEven`).  The fractional part `f = q - n` is
compared against 1/2 by cross-multiplication. -/
def roundHalfEven (q : Frac) : Int :=
  let n := fFloor q
  let r := q.num - n * q.den
  if 2 * r < q.den then n
  else if q.den < 2 * r then n + 1
  else if n % 2 = 0 then n else n + 1

/-- Multiply a fraction by `2 ^ k` for a signed exponent `k`. -/
def scalePow (q : Frac) (k : Int) : Frac :=
  if 0 ≤ k then ⟨q.num * 2 ^ k.toNat, q.den⟩ else ⟨q.num, q.den * 2 ^ (-k).toNat⟩

/-- Binary-exponent search: scale `q` into `[1, 2)` by doublings or halvings,
tracking the exponent.  Fuel-indexed so that the kernel can evaluate it; the
fuel chosen by `ilog2` always suffices. -/
def ilog2Aux : Nat → Frac → Int → Int
  | 0, _, e => e
  | fuel + 1, q, e =>
    if q.num < q.den then ilog2Aux fuel ⟨q.num * 2, q.den⟩ (e - 1)
    else if 2 * q.den ≤ q.num then ilog2Aux fuel ⟨q.num, q.den * 2⟩ (e + 1)
    else e

/-- For positive `q`, the integer `e` with `2 ^ e ≤ q < 2 ^ (e + 1)`
(at most `log₂ num + log₂ den + 1 ≤ |num| + |den| + 1` scaling steps). -/
def ilog2 (q : Frac) : Int := ilog2Aux (q.num.natAbs + q.den.natAbs + 1) q 0

/-- Round a positive fraction to a 64-bit mantissa, nearest-even: scale into
`[2^63, 2^64)`, round, scale back. -/
def round64Pos (q : Frac) : Frac :=
  let e := ilog2 q
  scalePow ⟨roundHalfEven (scalePow q (63 - e)), 1⟩ (e - 63)

/-- Rounding of an exact rational value to a precision-64 `big.Float`
(sign-symmetric, zero exact). -/
def round64 (q : Frac) : Frac :=
  if q.num = 0 then ⟨0, 1⟩
  else if 0 < q.num then round64Pos q
  else fNeg (round64Pos (fNeg q))

/-- Truncation toward zero, as performed by `big.Float.Int`
(`Int.tdiv` is T-division, rounding the quotient toward zero). -/
def truncInt (q : Frac) : Int := q.num.tdiv q.den

/-- Digit test used by the decimal reader. -/
def isDigit (c : Char) : Bool := decide ('0' ≤ c) && decide (c ≤ '9')

/-- Numeric value of a digit list, most significant first. -/
def digitsToNat (l : List Char) : Nat :=
  l.foldl (fun acc c => acc * 10 + (c.toNat - 48)) 0

/-- Exact rational value of an unsigned decimal numeral `digits[.digits]`:
`intPart + frac / 10 ^ |frac digits|`.  Mirrors the subset of
`big.Float.SetString` syntax that `RawString` and `MarshalJSON` produce
(no exponent part, no base prefix). -/
def parseUnsigned (s : GoString) : Option Frac :=
  let intPart := s.takeWhile isDigit
  let rest := s.dropWhile isDigit
  match rest with
  | [] => if intPart = [] then none else some ⟨digitsToNat intPart, 1⟩
  | '.' :: fracs =>
    if fracs.all isDigit ∧ ¬(intPart = [] ∧ fracs = []) then
      some ⟨digitsToNat intPart * 10 ^ fracs.length + digitsToNat fracs,
        (10 : Int) ^ fracs.length⟩
    else none
  | _ => none

/-- Exact rational value of a signed decimal numeral. -/
def parseDecimal (s : GoString) : Option Frac :=
  match s with
  | '-' :: rest => (parseUnsigned rest).map fNeg
  | '+' :: rest => parseUnsigned rest
  | _ => parseUnsigned s

/-- `big.Float.SetString` on a fresh receiver: the exact decimal value,
correctly rounded to precision 64 (the scale factor `10^2` of two-digit
decimals is exactly representable, so the single division in `Float.scan`
rounds once). -/
def SetStringFloat (s : GoString) : Option Frac := (parseDecimal s).map round64

/-- `Currency.setString` (part_006 lines 174-190) on a fresh `Currency`:
strip a leading `¤` (the source drops its two UTF-8 bytes, i.e. the whole
rune), parse through a precision-64 `big.Float`, multiply by the exact
constant 100 (one more precision-64 rounding), truncate toward zero. -/
def setString (data : GoString) : Option Int :=
  let data := if data.head? = some '¤' then data.drop 1 else data
  (SetStringFloat data).map (fun f => truncInt (round64 (fMulInt f 100)))

/-- `CurrencyFromString` (part_006 lines 240-247): underscores removed,
failures collapse to 0. -/
def CurrencyFromString (num : GoString) : Int :=
  ((setString (num.filter (fun c => c ≠ '_'))).getD 0)

/-- `ParseCurrency` (part_006 lines 249-256): underscores removed, `none`
standing for the `ERR_INVALIDAMOUNT` error. -/
def ParseCurrency (num : GoString) : Option Int :=
  setString (num.filter (fun c => c ≠ '_'))

/-- `Currency.UnmarshalJSON` (part_006 lines 192-205): strip a surrounding
pair of quotes, then `setString`. -/
def UnmarshalJSON (data : GoString) : Option Int :=
  if data.head? = some '"' ∧ data.getLast? = some '"' then
    setString (data.drop 1).dropLast
  else setString data

/-! ## Usernames (part_003: util.go)

`strings.ToLower` and `unicode.IsGraphic` cover the whole unicode table; they
enter as parameters, with the few facts the proofs need (ASCII lower-case
letters, digits, `_` and `�` are fixed points of `ToLower`; non-graphic runes
are uncased, are not spaces and are not uid characters) taken as explicit
hypotheses where required. -/

/-- Character class of the `invalid_uid` regexp complement `[a-z0-9_]`. -/
def isUidChar (c : Char) : Bool :=
  (decide ('a' ≤ c) && decide (c ≤ 'z')) ||
    (decide ('0' ≤ c) && decide (c ≤ '9')) || decide (c = '_')

/-- `HomogeniseUsername` (part_003 lines 60-64): lower-case every rune,
remove every space, replace every rune outside `[a-z0-9_]` with `'_'`
(the regexp matches single runes, so the replacement is rune-wise). -/
def HomogeniseUsername (toLower : Char → Char) (username : GoString) : GoString :=
  ((username.map toLower).filter (fun c => c ≠ ' ')).map
    (fun c => if isUidChar c then c else '_')

/-- Left trim of ASCII spaces. -/
def trimLeftSpaces (s : GoString) : GoString := s.dropWhile (fun c => c = ' ')

/-- `strings.Trim(s, " ")`: drop leading and trailing ASCII spaces. -/
def trimSpaces (s : GoString) : GoString :=
  ((trimLeftSpaces s).reverse.dropWhile (fun c => c = ' ')).reverse

/-- The unicode replacement character `�` substituted for non-graphic runes. -/
def replacementChar : Char := '�'

/-- `PasteuriseUsername` (part_003 lines 69-78): trim spaces, then map each
remaining rune to itself if graphic and to `�` otherwise; `runeCount` is
incremented once per rune seen by `strings.Map`, i.e. it counts the runes of
the trimmed string. -/
def PasteuriseUsername (isGraphic : Char → Bool) (username : GoString) :
    GoString × Nat :=
  let t := trimSpaces username
  (t.map (fun r => if isGraphic r then r else replacementChar), t.length)

/-! ## Transactions and servers (part_004: transactions.go, servers.go) -/

/-- The `Transaction` record. -/
structure Transaction where
  ID : GoString
  Source : GoString
  SourceServer : GoString
  Target : GoString
  TargetServer : GoString
  Amount : Int
  SentAmount : Int
  ReceivedAmount : Int
  Time : Int
  Revertable : Bool
  deriving DecidableEq, Repr

/-- The mutable `Server` state (servers.go lines 33-44); the `lock` field is
the concurrency guard and has no ledger content, the `token` is never read by
the operations below. -/
structure Server where
  UID : GoString
  Name : GoString
  balance : Int
  targetBalance : Int
  history : List Transaction
  pendingTransactions : List Transaction
  token : GoString
  WebhookURL : GoString
  modified : Bool
  deriving DecidableEq, Repr

/-- `Server.ChangeBal` (servers.go lines 67-77): refuse (and leave the state
unchanged) if the new balance would be negative, else apply and set
`modified`. -/
def ChangeBal (self : Server) (num : Int) : Server × Bool :=
  let new_balance := self.balance + num
  if new_balance < 0 then (self, false)
  else ({ self with balance := new_balance, modified := true }, true)

/-- `Server.AddToHistory` (servers.go lines 91-138): prepend to `history`
(growing the slice only while shorter than 10, so at length ≥ 10 the oldest
entry is dropped); when the transaction targets a named user on this server,
append it to `pendingTransactions`.  The webhook POST is dispatched to a
goroutine and touches no ledger state. -/
def AddToHistory (self : Server) (transaction : Transaction) : Server :=
  let history :=
    if self.history.length < 10 then transaction :: self.history
    else transaction :: self.history.dropLast
  let s1 := { self with modified := true, history := history }
  if s1.Name ≠ transaction.TargetServer ∨ transaction.Target = [] then s1
  else { s1 with pendingTransactions := s1.pendingTransactions ++ [transaction] }

/-- Remove the first list entry whose `ID` matches, keeping order
(the source shifts the tail left with `copy`). -/
def removeFirstAux (id : GoString) :
    List Transaction → Option Transaction × List Transaction
  | [] => (none, [])
  | t :: rest =>
    if t.ID = id then (some t, rest)
    else
      let r := removeFirstAux id rest
      (r.1, t :: r.2)

/-- `Server.removeAndReturnPendingTransaction` (servers.go lines 156-175):
remove and return the first pending transaction with the given id; when no
entry matches, the state (including `modified`) is untouched. -/
def removeAndReturnPendingTransaction (self : Server) (id : GoString) :
    Option Transaction × Server :=
  let r := removeFirstAux id self.pendingTransactions
  match r.1 with
  | some t => (some t, { self with pendingTransactions := r.2, modified := true })
  | none => (none, self)

/-- `Server.RemovePendingTransaction` (servers.go lines 178-180). -/
def RemovePendingTransaction (self : Server) (id : GoString) : Server :=
  (removeAndReturnPendingTransaction self id).2

/-- The compensating payment that `RejectPendingTransaction` hands to a fresh
goroutine and database transaction (servers.go lines 199-216). -/
structure ScheduledReversal where
  currentUID : GoString
  sourceServer : GoString
  target : GoString
  source : GoString
  receivedAmount : Int
  deriving DecidableEq, Repr

/-- `Server.RejectPendingTransaction` (servers.go lines 183-217) restricted to
its effect on `self` plus the reversal it schedules: remove the pending entry;
if absent or not revertable, nothing further happens. -/
def RejectPendingTransaction (self : Server) (id : GoString) :
    Server × Option ScheduledReversal :=
  let r := removeAndReturnPendingTransaction self id
  match r.1 with
  | none => (r.2, none)
  | some transaction =>
    if transaction.Revertable then
      (r.2, some ⟨self.UID, transaction.SourceServer, transaction.Target,
        transaction.Source, transaction.ReceivedAmount⟩)
    else (r.2, none)

/-! ## The payment engine (payments.go)

`Pay` mutates two servers through pointers which may alias (the source may
literally be the target object).  `PayWorld` carries both pointees plus the
aliasing bit; the accessors below read and write through the aliasing. -/

/-- The two server objects reachable from a `Pay` call.  When `aliased` is
true both pointers denote one object and the `tgt` field mirrors `src`. -/
structure PayWorld where
  src : Server
  tgt : Server
  aliased : Bool
  deriving DecidableEq, Repr

/-- Dereference the source pointer. -/
def getSrc (w : PayWorld) : Server := w.src

/-- Dereference the target pointer. -/
def getTgt (w : PayWorld) : Server := if w.aliased then w.src else w.tgt

/-- Write through the source pointer. -/
def setSrc (w : PayWorld) (s : Server) : PayWorld :=
  { w with src := s, tgt := if w.aliased then s else w.tgt }

/-- Write through the target pointer. -/
def setTgt (w : PayWorld) (s : Server) : PayWorld :=
  if w.aliased then { w with src := s, tgt := s } else { w with tgt := s }

/-- The closed error taxonomy raised by `Pay`, one constructor per
`errors.New("ERR_...")` in payments.go. -/
inductive PayErr where
  | sourceUsernameTooLong
  | usernameTooLong
  | invalidAmount
  | transactionLimit
  | cannotAfford
  | cannotPayNothing
  | internalError
  deriving DecidableEq, Repr

/-- `MakeTransaction` (part_004 lines 100-105) with the freshly generated
`(id, time)` pair passed in (the global generator is modelled separately). -/
def MakeTransaction (genId : GoString × Int)
    (source sourceServer target targetServer : GoString)
    (amount sentAmount receivedAmount : Int) : Transaction :=
  ⟨genId.1, source, sourceServer, target, targetServer, amount, sentAmount,
    receivedAmount, genId.2, false⟩

/-- `Server.Pay` (payments.go lines 31-104).  `exchangeRate srv amt toLurkcoin`
abstracts `srv.GetExchangeRate(amt, toLurkcoin)` (a `big.Float` computation
reading `srv`'s balance and target balance); `genId` abstracts the
`GenerateTransactionID` result consumed by `MakeTransaction`. -/
def Pay (isGraphic : Char → Bool) (exchangeRate : Server → Int → Bool → Int)
    (genId : GoString × Int) (w : PayWorld) (source target : GoString)
    (sentAmount : Int) (localCurrency revertable : Bool) :
    PayWorld × Except PayErr Transaction :=
  let p1 := PasteuriseUsername isGraphic source
  if 48 < p1.2 then (w, .error .sourceUsernameTooLong) else
  let p2 := PasteuriseUsername isGraphic target
  if 48 < p2.2 then (w, .error .usernameTooLong) else
  let amount := if localCurrency then exchangeRate (getSrc w) sentAmount true
    else sentAmount
  if ¬0 < sentAmount ∨ ¬0 < amount then (w, .error .invalidAmount) else
  if transactionLimit < sentAmount ∨ transactionLimit < amount then
    (w, .error .transactionLimit) else
  let r1 := ChangeBal (getSrc w) (-amount)
  -- a failed ChangeBal returns the server unchanged, so the world is exact
  if ¬r1.2 then (w, .error .cannotAfford) else
  let w1 := setSrc w r1.1
  let receivedAmount := exchangeRate (getTgt w1) amount false
  if ¬0 < receivedAmount then (w1, .error .cannotPayNothing) else
  if transactionLimit < receivedAmount then (w1, .error .transactionLimit) else
  let r2 := ChangeBal (getTgt w1) amount
  if ¬r2.2 then
    let r3 := ChangeBal (getSrc w1) amount
    (setSrc w1 r3.1, .error .internalError)
  else
  let w2 := setTgt w1 r2.1
  let tx0 := MakeTransaction genId p1.1 (getSrc w2).Name p2.1 (getTgt w2).Name
    amount sentAmount receivedAmount
  let transaction := if revertable then { tx0 with Revertable := true } else tx0
  let w3 := if w.aliased then w2
    else setSrc w2 (AddToHistory (getSrc w2) transaction)
  let w4 := setTgt w3 (AddToHistory (getTgt w3) transaction)
  (w4, .ok transaction)

/-! ## Transaction id generation (part_004 lines 69-98) -/

/-- Upper-case hexadecimal digit. -/
def hexDigitChar (n : Nat) : Char :=
  if n < 10 then Char.ofNat (48 + n) else Char.ofNat (55 + n)

/-- Hex digits, most significant first (fuel-indexed; `fuel ≥ n` suffices). -/
def natHexAux : Nat → Nat → List Char
  | 0, _ => []
  | fuel + 1, n =>
    if n = 0 then [] else natHexAux fuel (n / 16) ++ [hexDigitChar (n % 16)]

/-- Upper-case hexadecimal rendering (`%X`) of a natural number. -/
def natHex (n : Nat) : List Char :=
  if n = 0 then ['0'] else natHexAux (n + 1) n

/-- `fmt.Sprintf("T%X-%08X", t, id)` for `0 ≤ t` and `id < 2^32`. -/
def formatTransactionID (t : Int) (id : Nat) : GoString :=
  let h := natHex id
  'T' :: (natHex t.toNat ++ '-' :: (List.replicate (8 - h.length) '0' ++ h))

/-- The generator's package-level state: `lastTime` (initially -1) and the
`previouslyGenerated` set of 32-bit draws. -/
structure IdGenState where
  lastTime : Int
  previouslyGenerated : List Nat
  deriving DecidableEq, Repr

/-- First element of `draws` outside `seen`; `none` when the modelled supply
of random draws is exhausted. -/
def findUnseen : List Nat → List Nat → Option Nat
  | [], _ => none
  | d :: rest, seen => if d ∈ seen then findUnseen rest seen else some d

/-- `GenerateTransactionID` (part_004 lines 74-98).  `t` is the value read
from `time.Now().Unix()` and `draws` the successive `rand.Uint32()` results.
The over-1048576 branch only sleeps and is invisible to the state.  Note the
faithful detail that the source compares `t > lastTime` but never assigns
`lastTime`, so with `lastTime` at its initial -1 every call resets the seen
set. -/
def GenerateTransactionID (t : Int) (draws : List Nat) (st : IdGenState) :
    Option (GoString × Int × IdGenState) :=
  let seen := if st.lastTime < t then [] else st.previouslyGenerated
  match findUnseen draws seen with
  | none => none
  | some id => some (formatTransactionID t id, t, ⟨st.lastTime, id :: seen⟩)

/-! ## DatabaseTransaction.GetServers (part_002: db.go lines 283-347)

Server objects are identified by `(UID, object identity)` pairs; a backend is
a finite map from uid to object identity.  `dbGetServers` is the atomic
all-or-nothing `Database.GetServers`. -/

/-- A checked-out server reference: its uid and the identity of the
underlying object (two aliases are equal pairs). -/
abbrev Srv := GoString × Nat

/-- The pluggable backend's `GetServers`: all names resolved atomically,
`none` on any miss. -/
def dbGetServers (db : List (GoString × Nat)) (names : List GoString) :
    Option (List Srv) :=
  names.mapM (fun n => (db.lookup n).map (fun i => (n, i)))

/-- `DatabaseTransaction.getFromCache` (lines 283-294): resolve every name
against the cache (keyed by `Server.UID`), failing on the first miss. -/
def getFromCache (cache : List Srv) (names : List GoString) :
    Option (List Srv) :=
  names.mapM (fun n => (cache.lookup n).map (fun i => (n, i)))

/-- The deduplication scan of `GetServers` (lines 315-331): homogenise each
name, keep first occurrences in order.  In the source this compacts the
variadic slice in place; the skipped duplicates leave the tail beyond the
write index stale. -/
def dedupScanAux (homog : GoString → GoString) (known : List GoString) :
    List GoString → List GoString
  | [] => []
  | n :: rest =>
    let h := homog n
    if h ∈ known then dedupScanAux homog known rest
    else h :: dedupScanAux homog (h :: known) rest

/-- `DatabaseTransaction.GetServers` (lines 297-347) on a fresh transaction
(`self.servers == nil`).  Returns the fetched servers plus the name list that
was handed to the backend.  With more than one name the input is homogenised
and deduplicated in place, so `rawNames` is the unique prefix followed by the
stale tail of the original slice; if any duplicate was skipped the result is
re-read from the cache through `rawNames`. -/
def GetServersFirst (homog : GoString → GoString) (db : List (GoString × Nat))
    (names : List GoString) : Option (List Srv) × List GoString :=
  if 1 < names.length then
    let uniques := dedupScanAux homog [] names
    let deduplicated := uniques.length ≠ names.length
    let rawNames := uniques ++ names.drop uniques.length
    match dbGetServers db uniques with
    | none => (none, uniques)
    | some servers =>
      if deduplicated then (getFromCache servers rawNames, uniques)
      else (some servers, uniques)
  else
    match dbGetServers db names with
    | none => (none, names)
    | some servers => (some servers, names)

/-- Decidable equality for `Except` results. -/
instance exceptDecEq {α β : Type} [DecidableEq α] [DecidableEq β] :
    DecidableEq (Except α β)
  | .error a, .error b => decidable_of_iff (a = b) (by simp)
  | .error _, .ok _ => isFalse (by simp)
  | .ok _, .error _ => isFalse (by simp)
  | .ok a, .ok b => decidable_of_iff (a = b) (by simp)

/-! ## Concrete fixtures used by the claim theorems -/

/-- Oracle instantiation: every rune graphic (true of ASCII letters). -/
def allGraphic : Char → Bool := fun _ => true

/-- Exchange-rate oracle for a server whose target balance is zero: the
source returns the amount unchanged with rate 1 (servers.go lines 287-289). -/
def idRate : Server → Int → Bool → Int := fun _ amt _ => amt

/-- Exchange-rate oracle for a conversion that rounds to zero, as
`GetExchangeRate` does for a target with a huge balance and a tiny target
balance (for example balance ¤10⁹ and target balance ¤0.01 turn ¤5.00 into
an exchange product below ¤0.005, which `CurrencyFromFloat` truncates
to ¤0.00). -/
def zeroRate : Server → Int → Bool → Int := fun _ _ _ => 0

/-- A fixed generated `(id, time)` pair for `MakeTransaction`. -/
def genIdX : GoString × Int := (['X'], 7)

/-- A source server with balance ¤10.00 and fixed 1:1 rates. -/
def serverS : Server := ⟨['s'], ['S'], 1000, 0, [], [], [], [], false⟩

/-- A target server with balance ¤0.00. -/
def serverT : Server := ⟨['t'], ['T'], 0, 0, [], [], [], [], false⟩

/-! ## C1 -/

/-- C1: the claim says that when `Pay` has already debited the source and then
rejects with CANNOTPAYNOTHING or TRANSACTIONLIMIT, the source balance is
restored before returning.  The code (payments.go lines 69-77) returns from
both rejections without the compensating `ChangeBal` that the internal-error
branch performs, so the debit survives: with source balance ¤10.00, a payment
of ¤5.00 whose converted received amount rounds to ¤0.00 returns
ERR_CANNOTPAYNOTHING with the source balance left at ¤5.00, not ¤10.00. -/
theorem c1_pay_rejection_leaves_source_debited :
    (Pay allGraphic zeroRate genIdX ⟨serverS, serverT, false⟩ ['u'] ['v']
        500 false false).2 = Except.error PayErr.cannotPayNothing ∧
    serverS.balance = 1000 ∧
    (Pay allGraphic zeroRate genIdX ⟨serverS, serverT, false⟩ ['u'] ['v']
        500 false false).1.src.balance = 500 := by decide

/-! ## C2 -/

/-- C2: the claim says ids generated within one second are pairwise distinct
because the seen-set is cleared only when the current second exceeds the last
recorded one.  The code (part_004 lines 69-98) never assigns `lastTime`, so
`t > lastTime` stays true and the set is cleared on every call: two calls in
the same second whose random draws coincide return the identical id string
(here both return `T1-00000005`). -/
theorem c2_generate_id_repeats_within_second :
    GenerateTransactionID 1 [5] ⟨-1, []⟩
        = some (formatTransactionID 1 5, 1, ⟨-1, [5]⟩) ∧
    GenerateTransactionID 1 [5] ⟨-1, [5]⟩
        = some (formatTransactionID 1 5, 1, ⟨-1, [5]⟩) ∧
    formatTransactionID 1 5
        = ['T', '1', '-', '0', '0', '0', '0', '0', '0', '0', '5'] := by decide

/-! ## C5 -/

/-- C5: the claim says parsing `RawString` output returns the value exactly
and JSON encode/decode is the identity.  `setString` goes through a
precision-64 `big.Float` and `Float.Int` truncates toward zero, so the value
¤1.05 (raw 105) comes back as 104: `SetString("1.05")` rounds 21/20 down by
(2/5)·2⁻⁶³, the multiply by 100 rounds to 105 − 2⁻⁵⁷, and truncation yields
104.  The JSON form of 105 is `1.05` (no trailing zero to strip), so decoding
the encoding also yields 104. -/
theorem c5_currency_roundtrip_not_identity :
    RawString 105 = ['1', '.', '0', '5'] ∧
    ParseCurrency (RawString 105) = some 104 ∧
    CurrencyFromString (RawString 105) = 104 ∧
    MarshalJSON 105 = ['1', '.', '0', '5'] ∧
    UnmarshalJSON (MarshalJSON 105) = some 104 := by decide

/-! ## C8 -/

/-- C8: a first `GetServers` call on `("a", "b", "a")` with both accounts in
the backend succeeds, hands only the deduplicated list `("a", "b")` to the
backend, and returns three references in input order in which the first and
third are the same underlying object (identity 0). -/
theorem c8_getservers_dedup_aliases :
    GetServersFirst (HomogeniseUsername (fun c => c)) [(['a'], 0), (['b'], 1)]
        [['a'], ['b'], ['a']]
      = (some [(['a'], 0), (['b'], 1), (['a'], 0)], [['a'], ['b']]) := by decide

/-! ## C9 -/

/-- When no list entry has the searched id, the scan finds nothing and the
list survives untouched. -/
theorem removeFirstAux_of_not_mem (id : GoString) (l : List Transaction)
    (h : ∀ t ∈ l, t.ID ≠ id) : removeFirstAux id l = (none, l) := by
  induction l with
  | nil => rfl
  | cons t rest ih =>
    have ht : t.ID ≠ id := h t (by simp)
    have hrest : removeFirstAux id rest = (none, rest) :=
      ih (fun u hu => h u (List.mem_cons_of_mem _ hu))
    simp [removeFirstAux, ht, hrest]

/-- C9: acknowledging (`RemovePendingTransaction`) or rejecting
(`RejectPendingTransaction`) an id that occurs nowhere in the pending inbox
leaves the server state entirely unchanged — balance, history, pending list
and the `modified` bit included — and schedules no reversal. -/
theorem c9_unknown_pending_id_noop (s : Server) (id : GoString)
    (h : ∀ t ∈ s.pendingTransactions, t.ID ≠ id) :
    RemovePendingTransaction s id = s ∧
      RejectPendingTransaction s id = (s, none) := by
  have hr : removeAndReturnPendingTransaction s id = (none, s) := by
    simp [removeAndReturnPendingTransaction,
      removeFirstAux_of_not_mem id s.pendingTransactions h]
  exact ⟨by simp [RemovePendingTransaction, hr],
    by simp [RejectPendingTransaction, hr]⟩

/-- A pending transaction with id `q` for the C9 witness. -/
def tx9 : Transaction := ⟨['q'], [], [], [], [], 0, 0, 0, 0, false⟩

/-- A server holding exactly the pending transaction `tx9`. -/
def server9 : Server := ⟨['s'], ['S'], 1000, 0, [], [tx9], [], [], false⟩

/-- Witness for C9: the id `z` is absent from `server9`'s pending inbox and
both operations are no-ops there. -/
theorem c9_unknown_pending_id_noop_witness :
    (∀ t ∈ server9.pendingTransactions, t.ID ≠ ['z']) ∧
    RemovePendingTransaction server9 ['z'] = server9 ∧
    RejectPendingTransaction server9 ['z'] = (server9, none) :=
  ⟨by decide, (c9_unknown_pending_id_noop server9 ['z'] (by decide)).1,
    (c9_unknown_pending_id_noop server9 ['z'] (by decide)).2⟩

/-! ## C7 -/

/-- Every rune of a homogenised name lies in `[a-z0-9_]`. -/
theorem mem_homogenise_uid (tl : Char → Char) (x : GoString) :
    ∀ c ∈ HomogeniseUsername tl x, isUidChar c = true := by
  intro c hc
  unfold HomogeniseUsername at hc
  obtain ⟨d, _, rfl⟩ := List.mem_map.1 hc
  split_ifs with h
  · exact h
  · decide

/-- One step of `HomogeniseUsername`: the head contributes nothing when it
lowers to a space, else its cleaned lower-casing. -/
theorem homogenise_cons (tl : Char → Char) (c : Char) (l : GoString) :
    HomogeniseUsername tl (c :: l) =
      (if tl c = ' ' then [] else [if isUidChar (tl c) then tl c else '_']) ++
        HomogeniseUsername tl l := by
  by_cases h : tl c = ' ' <;> simp [HomogeniseUsername, List.filter_cons, h]

/-- `HomogeniseUsername` fixes strings all of whose runes are uid runes,
given that `ToLower` fixes those runes. -/
theorem homogenise_of_uid (tl : Char → Char)
    (hFix : ∀ c, isUidChar c = true → tl c = c) :
    ∀ l : GoString, (∀ c ∈ l, isUidChar c = true) →
      HomogeniseUsername tl l = l := by
  intro l hl
  induction l with
  | nil => rfl
  | cons c rest ih =>
    have hc : isUidChar c = true := hl c (by simp)
    have hsp : c ≠ ' ' := by
      intro hcsp
    -- a space is not a uid rune
      rw [hcsp] at hc
      exact absurd hc (by decide)
    rw [homogenise_cons, hFix c hc,
      ih (fun d hd => hl d (List.mem_cons_of_mem _ hd))]
    simp [hsp, hc]

/-- Dropping leading spaces does not change the homogenised name (spaces are
removed by homogenisation anyway). -/
theorem homogenise_dropWhile_spaces (tl : Char → Char) (hSpace : tl ' ' = ' ') :
    ∀ s : GoString,
      HomogeniseUsername tl (s.dropWhile (fun c => c = ' ')) =
        HomogeniseUsername tl s := by
  intro s
  induction s with
  | nil => rfl
  | cons c rest ih =>
    by_cases h : c = ' '
    · subst h
      have hstep : (' ' :: rest).dropWhile (fun c => c = ' ')
          = rest.dropWhile (fun c => c = ' ') := by
        simp [List.dropWhile_cons]
      rw [hstep, ih, homogenise_cons, hSpace]
      simp
    · simp [List.dropWhile_cons, h]

/-- `HomogeniseUsername` distributes over append. -/
theorem homogenise_append (tl : Char → Char) (a b : GoString) :
    HomogeniseUsername tl (a ++ b) =
      HomogeniseUsername tl a ++ HomogeniseUsername tl b := by
  simp [HomogeniseUsername]

/-- A string of spaces homogenises to the empty string. -/
theorem homogenise_all_spaces (tl : Char → Char) (hSpace : tl ' ' = ' ') :
    ∀ l : GoString, (∀ c ∈ l, c = ' ') → HomogeniseUsername tl l = [] := by
  intro l hl
  induction l with
  | nil => rfl
  | cons c rest ih =>
    rw [homogenise_cons, hl c (by simp), hSpace]
    simp [ih (fun d hd => hl d (List.mem_cons_of_mem _ hd))]

/-- Trimming spaces from both ends does not change the homogenised name. -/
theorem homogenise_trim (tl : Char → Char) (hSpace : tl ' ' = ' ')
    (s : GoString) :
    HomogeniseUsername tl (trimSpaces s) = HomogeniseUsername tl s := by
  unfold trimSpaces trimLeftSpaces
  set u := s.dropWhile (fun c => c = ' ') with hu
  have hdecomp : u = (u.reverse.dropWhile (fun c => c = ' ')).reverse ++
      (u.reverse.takeWhile (fun c => c = ' ')).reverse := by
    conv_lhs => rw [← List.reverse_reverse u,
      ← List.takeWhile_append_dropWhile (p := fun c => decide (c = ' '))
        (l := u.reverse)]
    rw [List.reverse_append]
  have hsp : ∀ c ∈ (u.reverse.takeWhile (fun c => c = ' ')).reverse, c = ' ' := by
    intro c hc
    rw [List.mem_reverse] at hc
    have := List.mem_takeWhile_imp hc
    simpa using this
  calc HomogeniseUsername tl (u.reverse.dropWhile (fun c => c = ' ')).reverse
      = HomogeniseUsername tl (u.reverse.dropWhile (fun c => c = ' ')).reverse ++
          HomogeniseUsername tl (u.reverse.takeWhile (fun c => c = ' ')).reverse := by
        rw [homogenise_all_spaces tl hSpace _ hsp, List.append_nil]
    _ = HomogeniseUsername tl u := by rw [← homogenise_append, ← hdecomp]
    _ = HomogeniseUsername tl s := by rw [hu, homogenise_dropWhile_spaces tl hSpace]

/-- Replacing non-graphic runes by `�` does not change the homogenised name:
graphic runes pass through, and both a non-graphic rune and `�` homogenise
to `_`. -/
theorem homogenise_pasteurise_map (tl : Char → Char) (g : Char → Bool)
    (hNG : ∀ c, g c = false → tl c = c ∧ isUidChar c = false ∧ c ≠ ' ')
    (hRepl : tl replacementChar = replacementChar) :
    ∀ l : GoString,
      HomogeniseUsername tl (l.map (fun r => if g r then r else replacementChar))
        = HomogeniseUsername tl l := by
  intro l
  induction l with
  | nil => rfl
  | cons c rest ih =>
    rw [List.map_cons, homogenise_cons, homogenise_cons, ih]
    cases hg : g c with
    | true => simp [hg]
    | false =>
      obtain ⟨h1, h2, h3⟩ := hNG c hg
      have hrs : ¬replacementChar = ' ' := by decide
      have hru : ¬isUidChar replacementChar = true := by decide
      rw [if_neg Bool.false_ne_true, hRepl, if_neg hrs, if_neg hru, h1,
        if_neg h3, if_neg (by simp [h2])]

/-- C7: `HomogeniseUsername` is idempotent and absorbs `PasteuriseUsername`,
for any `ToLower`/`IsGraphic` satisfying the unicode facts the Go library
guarantees: lower-case letters, digits, `_` and `�` are fixed points of
`ToLower`, the space is one too, and non-graphic runes are uncased, are not
spaces and are outside `[a-z0-9_]`. -/
theorem c7_homogenise_idempotent_absorbs_pasteurise
    (tl : Char → Char) (g : Char → Bool)
    (hFix : ∀ c, isUidChar c = true → tl c = c)
    (hSpace : tl ' ' = ' ')
    (hNG : ∀ c, g c = false → tl c = c ∧ isUidChar c = false ∧ c ≠ ' ')
    (hRepl : tl replacementChar = replacementChar) (x : GoString) :
    HomogeniseUsername tl (HomogeniseUsername tl x) =
        HomogeniseUsername tl x ∧
      HomogeniseUsername tl (PasteuriseUsername g x).1 =
        HomogeniseUsername tl x := by
  constructor
  · exact homogenise_of_uid tl hFix _ (mem_homogenise_uid tl x)
  · show HomogeniseUsername tl ((trimSpaces x).map _) = _
    rw [homogenise_pasteurise_map tl g hNG hRepl,
      homogenise_trim tl hSpace]

/-- Witness for C7 at the identity lower-caser, the everything-is-graphic
classifier and the string `"A b"`. -/
theorem c7_homogenise_witness :
    HomogeniseUsername (fun c => c)
          (HomogeniseUsername (fun c => c) ['A', ' ', 'b'])
        = HomogeniseUsername (fun c => c) ['A', ' ', 'b'] ∧
      HomogeniseUsername (fun c => c)
          (PasteuriseUsername (fun _ => true) ['A', ' ', 'b']).1
        = HomogeniseUsername (fun c => c) ['A', ' ', 'b'] :=
  c7_homogenise_idempotent_absorbs_pasteurise (fun c => c) (fun _ => true)
    (fun _ _ => rfl) rfl (fun _ h => Bool.noConfusion h) rfl ['A', ' ', 'b']

/-! ## Lemmas about the payment engine -/

/-- A successful `ChangeBal` applies the delta and sets `modified`. -/
theorem ChangeBal_ok (s : Server) (n : Int) (h : (ChangeBal s n).2 = true) :
    (ChangeBal s n).1 = { s with balance := s.balance + n, modified := true } := by
  simp only [ChangeBal] at h ⊢
  by_cases hb : s.balance + n < 0
  · rw [if_pos hb] at h
    exact absurd h (by simp)
  · rw [if_neg hb]

/-- `AddToHistory` never changes the balance. -/
theorem AddToHistory_balance (s : Server) (t : Transaction) :
    (AddToHistory s t).balance = s.balance := by
  simp only [AddToHistory]
  split_ifs <;> rfl

/-- `AddToHistory` prepends, dropping the oldest entry at length ≥ 10. -/
theorem AddToHistory_history (s : Server) (t : Transaction) :
    (AddToHistory s t).history =
      (if s.history.length < 10 then t :: s.history
        else t :: s.history.dropLast) := by
  simp only [AddToHistory]
  split_ifs <;> rfl

/-- The world after `Pay`'s debit of the source. -/
def payDebit (w : PayWorld) (amount : Int) : PayWorld :=
  setSrc w (ChangeBal (getSrc w) (-amount)).1

/-- The world `Pay` returns on success: debit the source, credit the target,
then insert the transaction into the source history (distinct objects only)
and the target history. -/
def paySuccessWorld (w : PayWorld) (amount : Int) (tx : Transaction) : PayWorld :=
  let w1 := payDebit w amount
  let w2 := setTgt w1 (ChangeBal (getTgt w1) amount).1
  let w3 := if w.aliased then w2 else setSrc w2 (AddToHistory (getSrc w2) tx)
  setTgt w3 (AddToHistory (getTgt w3) tx)

/-- Characterisation of a successful `Pay`: the converted amount is positive,
both `ChangeBal` calls succeed, and the returned world is the success world. -/
theorem pay_ok_elim (g : Char → Bool) (ex : Server → Int → Bool → Int)
    (gid : GoString × Int) (w : PayWorld) (s t : GoString) (amt : Int)
    (lc rv : Bool) (w' : PayWorld) (tx : Transaction)
    (h : Pay g ex gid w s t amt lc rv = (w', Except.ok tx)) :
    ∃ amount : Int,
      amount = (if lc then ex (getSrc w) amt true else amt) ∧
      0 < amount ∧
      (ChangeBal (getSrc w) (-amount)).2 = true ∧
      (ChangeBal (getTgt (payDebit w amount)) amount).2 = true ∧
      w' = paySuccessWorld w amount tx := by
  unfold Pay at h
  lift_lets at h
  extract_lets p1 p2 amount r1 w1 receivedAmount r2 r3 w2 tx0 transaction w3 w4
    at h
  split at h
  · exact absurd (congrArg Prod.snd h) (by simp)
  split at h
  · exact absurd (congrArg Prod.snd h) (by simp)
  split at h
  · exact absurd (congrArg Prod.snd h) (by simp)
  next h3 =>
  split at h
  · exact absurd (congrArg Prod.snd h) (by simp)
  split at h
  · exact absurd (congrArg Prod.snd h) (by simp)
  next h5 =>
  split at h
  · exact absurd (congrArg Prod.snd h) (by simp)
  split at h
  · exact absurd (congrArg Prod.snd h) (by simp)
  split at h
  · exact absurd (congrArg Prod.snd h) (by simp)
  next h8 =>
  injection h with hw hres
  injection hres with htx
  refine ⟨amount, rfl, ?_, ?_, ?_, ?_⟩
  · rcases not_or.1 h3 with ⟨-, hpos⟩
    exact not_not.1 hpos
  · exact not_not.1 h5
  · exact not_not.1 h8
  · rw [← hw, ← htx]
    rfl

/-- The success world for distinct source and target objects: the source is
debited and receives the history entry, the target is credited and receives
the history entry (and possibly the pending entry). -/
theorem paySuccessWorld_not_aliased (w : PayWorld) (amount : Int)
    (tx : Transaction) (hal : w.aliased = false) :
    paySuccessWorld w amount tx =
      ⟨AddToHistory (ChangeBal w.src (-amount)).1 tx,
        AddToHistory (ChangeBal w.tgt amount).1 tx, false⟩ := by
  simp [paySuccessWorld, payDebit, setSrc, setTgt, getSrc, getTgt, hal]

/-- The success world when the source and the target are one object: debit,
then credit, then a single history insertion. -/
theorem paySuccessWorld_self (w : PayWorld) (amount : Int) (tx : Transaction)
    (hal : w.aliased = true) :
    paySuccessWorld w amount tx =
      ⟨AddToHistory (ChangeBal (ChangeBal w.src (-amount)).1 amount).1 tx,
        AddToHistory (ChangeBal (ChangeBal w.src (-amount)).1 amount).1 tx,
        true⟩ := by
  simp [paySuccessWorld, payDebit, setSrc, setTgt, getSrc, getTgt, hal]

/-! ## C3 -/

/-- C3: every successful `Pay` between two distinct server objects conserves
the sum of the two balances — the source is debited and the target credited
by the same base `amount` (payments.go lines 64 and 79 both move `amount`,
not the converted `receivedAmount`). -/
theorem c3_pay_conserves_balance_sum (g : Char → Bool)
    (ex : Server → Int → Bool → Int) (gid : GoString × Int) (w : PayWorld)
    (s t : GoString) (amt : Int) (lc rv : Bool) (w' : PayWorld)
    (tx : Transaction) (hal : w.aliased = false)
    (h : Pay g ex gid w s t amt lc rv = (w', Except.ok tx)) :
    w'.src.balance + w'.tgt.balance = w.src.balance + w.tgt.balance := by
  obtain ⟨amount, -, -, hcb1, hcb2, hw⟩ :=
    pay_ok_elim g ex gid w s t amt lc rv w' tx h
  subst hw
  rw [paySuccessWorld_not_aliased w amount tx hal]
  have e1 : (ChangeBal w.src (-amount)).1
      = { w.src with balance := w.src.balance + -amount, modified := true } :=
    ChangeBal_ok w.src (-amount) hcb1
  have hg : getTgt (payDebit w amount) = w.tgt := by
    simp [payDebit, setSrc, getTgt, hal]
  rw [hg] at hcb2
  have e2 : (ChangeBal w.tgt amount).1
      = { w.tgt with balance := w.tgt.balance + amount, modified := true } :=
    ChangeBal_ok w.tgt amount hcb2
  show (AddToHistory _ tx).balance + (AddToHistory _ tx).balance = _
  rw [AddToHistory_balance, AddToHistory_balance, e1, e2]
  show w.src.balance + -amount + (w.tgt.balance + amount) = _
  omega

/-- The transaction minted by the concrete successful payment used as the C3
witness: user `u` on `S` pays user `v` on `T` ¤3.00. -/
def c3tx : Transaction :=
  ⟨['X'], ['u'], ['S'], ['v'], ['T'], 300, 300, 300, 7, false⟩

/-- The world after the concrete C3 payment: source debited to ¤7.00, target
credited to ¤3.00, the transaction in both histories and in the target's
pending inbox. -/
def c3w : PayWorld :=
  ⟨⟨['s'], ['S'], 700, 0, [c3tx], [], [], [], true⟩,
    ⟨['t'], ['T'], 300, 0, [c3tx], [c3tx], [], [], true⟩, false⟩

/-- Witness for C3: the concrete payment succeeds and 700 + 300 = 1000 + 0. -/
theorem c3_pay_conserves_balance_sum_witness :
    Pay allGraphic idRate genIdX ⟨serverS, serverT, false⟩ ['u'] ['v']
        300 false false = (c3w, Except.ok c3tx) ∧
    c3w.src.balance + c3w.tgt.balance = serverS.balance + serverT.balance :=
  ⟨by decide,
    c3_pay_conserves_balance_sum allGraphic idRate genIdX
      ⟨serverS, serverT, false⟩ ['u'] ['v'] 300 false false c3w c3tx rfl
      (by decide)⟩

/-! ## C10 -/

/-- C10: when the source and the target of a successful `Pay` are the same
server object, the debit and the credit of the same base amount cancel, so
the balance is unchanged, and — because the source-side `AddToHistory` is
skipped for aliased servers (payments.go line 95) — exactly one history entry
is inserted: the new history is the transaction prepended to the old one
(dropping the oldest entry at length 10). -/
theorem c10_self_pay_balance_unchanged (g : Char → Bool)
    (ex : Server → Int → Bool → Int) (gid : GoString × Int) (w : PayWorld)
    (s t : GoString) (amt : Int) (lc rv : Bool) (w' : PayWorld)
    (tx : Transaction) (hal : w.aliased = true)
    (h : Pay g ex gid w s t amt lc rv = (w', Except.ok tx)) :
    w'.src.balance = w.src.balance ∧
    w'.src.history =
      tx :: (if w.src.history.length < 10 then w.src.history
        else w.src.history.dropLast) ∧
    w'.tgt = w'.src := by
  obtain ⟨amount, -, -, hcb1, hcb2, hw⟩ :=
    pay_ok_elim g ex gid w s t amt lc rv w' tx h
  subst hw
  rw [paySuccessWorld_self w amount tx hal]
  have e1 : (ChangeBal w.src (-amount)).1
      = { w.src with balance := w.src.balance + -amount, modified := true } :=
    ChangeBal_ok w.src (-amount) hcb1
  have hg : getTgt (payDebit w amount) = (ChangeBal w.src (-amount)).1 := by
    simp [payDebit, setSrc, getSrc, getTgt, hal]
  rw [hg] at hcb2
  have e2 : (ChangeBal (ChangeBal w.src (-amount)).1 amount).1
      = { (ChangeBal w.src (-amount)).1 with
          balance := (ChangeBal w.src (-amount)).1.balance + amount,
          modified := true } :=
    ChangeBal_ok (ChangeBal w.src (-amount)).1 amount hcb2
  refine ⟨?_, ?_, rfl⟩
  · show (AddToHistory _ tx).balance = _
    rw [AddToHistory_balance, e2, e1]
    show w.src.balance + -amount + amount = w.src.balance
    omega
  · show (AddToHistory _ tx).history = _
    rw [AddToHistory_history, e2, e1]
    simp
    split_ifs <;> rfl

/-- The transaction minted by the concrete self-payment used as the C10
witness. -/
def c10tx : Transaction :=
  ⟨['X'], ['u'], ['S'], ['v'], ['S'], 300, 300, 300, 7, false⟩

/-- The single server object after the concrete C10 self-payment: the balance
is back at ¤10.00, one history entry, one pending entry. -/
def c10srv : Server :=
  ⟨['s'], ['S'], 1000, 0, [c10tx], [c10tx], [], [], true⟩

/-- Witness for C10: a concrete aliased payment succeeds, the balance is
unchanged at ¤10.00 and the history grows by exactly the minted entry. -/
theorem c10_self_pay_balance_unchanged_witness :
    Pay allGraphic idRate genIdX ⟨serverS, serverS, true⟩ ['u'] ['v']
        300 false false = (⟨c10srv, c10srv, true⟩, Except.ok c10tx) ∧
    c10srv.balance = serverS.balance ∧
    c10srv.history = c10tx :: serverS.history :=
  ⟨by decide, (c10_self_pay_balance_unchanged allGraphic idRate genIdX
      ⟨serverS, serverS, true⟩ ['u'] ['v'] 300 false false
      ⟨c10srv, c10srv, true⟩ c10tx rfl (by decide)).1,
    by decide⟩

/-! ## C4 -/

/-- The per-account invariant of the spec: a non-negative balance and at most
ten history entries. -/
def Inv (s : Server) : Prop := 0 ≤ s.balance ∧ s.history.length ≤ 10

instance (s : Server) : Decidable (Inv s) :=
  inferInstanceAs (Decidable (_ ∧ _))

/-- `ChangeBal` preserves the invariant: it refuses any delta that would make
the balance negative, and it never touches the history. -/
theorem Inv_ChangeBal (s : Server) (n : Int) (h : Inv s) :
    Inv (ChangeBal s n).1 := by
  simp only [ChangeBal]
  split_ifs with hb
  · exact h
  · exact ⟨show (0 : Int) ≤ s.balance + n by omega, h.2⟩

/-- `AddToHistory` preserves the invariant: the history never grows past ten
entries and the balance is untouched. -/
theorem Inv_AddToHistory (s : Server) (t : Transaction) (h : Inv s) :
    Inv (AddToHistory s t) := by
  obtain ⟨h1, h2⟩ := h
  refine ⟨?_, ?_⟩
  · rw [show (AddToHistory s t).balance = s.balance from AddToHistory_balance s t]
    exact h1
  · rw [show (AddToHistory s t).history = _ from AddToHistory_history s t]
    by_cases hl : s.history.length < 10
    · simp [hl]
      omega
    · simp [hl, List.length_dropLast]
      omega

/-- `RemovePendingTransaction` touches only the pending list and the
`modified` bit, so the invariant survives. -/
theorem Inv_RemovePendingTransaction (s : Server) (id : GoString) (h : Inv s) :
    Inv (RemovePendingTransaction s id) := by
  simp only [RemovePendingTransaction, removeAndReturnPendingTransaction]
  split
  · exact h
  · exact h

/-- The server returned by `RejectPendingTransaction` is exactly the one
`RemovePendingTransaction` produces. -/
theorem RejectPendingTransaction_fst (s : Server) (id : GoString) :
    (RejectPendingTransaction s id).1 = RemovePendingTransaction s id := by
  simp only [RejectPendingTransaction, RemovePendingTransaction]
  split
  · rfl
  · split_ifs <;> rfl

/-- The single-server operations of the claim: balance changes, history
insertions and the two pending-inbox operations. -/
inductive ServerOp where
  | changeBal (num : Int)
  | addToHistory (t : Transaction)
  | removePending (id : GoString)
  | rejectPending (id : GoString)
  deriving DecidableEq, Repr

/-- Apply one operation to a server. -/
def applyOp (s : Server) : ServerOp → Server
  | .changeBal n => (ChangeBal s n).1
  | .addToHistory t => AddToHistory s t
  | .removePending id => RemovePendingTransaction s id
  | .rejectPending id => (RejectPendingTransaction s id).1

/-- Apply a sequence of operations from the left. -/
def applyOps (s : Server) (ops : List ServerOp) : Server :=
  ops.foldl applyOp s

/-- Every single operation preserves the invariant. -/
theorem Inv_applyOp (s : Server) (op : ServerOp) (h : Inv s) :
    Inv (applyOp s op) := by
  cases op with
  | changeBal n => exact Inv_ChangeBal s n h
  | addToHistory t => exact Inv_AddToHistory s t h
  | removePending id => exact Inv_RemovePendingTransaction s id h
  | rejectPending id =>
    rw [show applyOp s (.rejectPending id) = (RejectPendingTransaction s id).1
        from rfl, RejectPendingTransaction_fst]
    exact Inv_RemovePendingTransaction s id h

/-- Every operation sequence preserves the invariant. -/
theorem Inv_applyOps : ∀ (ops : List ServerOp) (s : Server), Inv s →
    Inv (applyOps s ops)
  | [], _, h => h
  | op :: rest, s, h => Inv_applyOps rest (applyOp s op) (Inv_applyOp s op h)

/-- `Pay` preserves the invariant of both pointees on every path, successful
or rejected: each balance write goes through `ChangeBal` and each history
write through `AddToHistory`. -/
theorem Inv_Pay (g : Char → Bool) (ex : Server → Int → Bool → Int)
    (gid : GoString × Int) (w : PayWorld) (s t : GoString) (amt : Int)
    (lc rv : Bool) (w' : PayWorld) (res : Except PayErr Transaction)
    (h : Pay g ex gid w s t amt lc rv = (w', res))
    (h1 : Inv w.src) (h2 : Inv w.tgt) : Inv w'.src ∧ Inv w'.tgt := by
  unfold Pay at h
  lift_lets at h
  extract_lets p1 p2 amount r1 w1 receivedAmount r2 r3 w2 tx0 transaction w3 w4
    at h
  have hr1 : Inv r1.1 := Inv_ChangeBal (getSrc w) (-amount) h1
  have hw1src : Inv w1.src := hr1
  have hw1tgt : Inv w1.tgt := by
    show Inv (if w.aliased then r1.1 else w.tgt)
    split_ifs
    · exact hr1
    · exact h2
  have hw1get : Inv (getTgt w1) := by
    unfold getTgt
    split_ifs
    · exact hw1src
    · exact hw1tgt
  have hr2 : Inv r2.1 := Inv_ChangeBal (getTgt w1) amount hw1get
  have hr3 : Inv r3.1 := Inv_ChangeBal (getSrc w1) amount hw1src
  have hw2src : Inv w2.src := by
    show Inv (setTgt w1 r2.1).src
    unfold setTgt
    split_ifs
    · exact hr2
    · exact hw1src
  have hw2tgt : Inv w2.tgt := by
    show Inv (setTgt w1 r2.1).tgt
    unfold setTgt
    split_ifs
    · exact hr2
    · exact hr2
  have hw3src : Inv w3.src := by
    show Inv (if w.aliased then w2 else
      setSrc w2 (AddToHistory (getSrc w2) transaction)).src
    split_ifs
    · exact hw2src
    · exact Inv_AddToHistory (getSrc w2) transaction hw2src
  have hw3tgt : Inv w3.tgt := by
    show Inv (if w.aliased then w2 else
      setSrc w2 (AddToHistory (getSrc w2) transaction)).tgt
    split_ifs
    · exact hw2tgt
    · show Inv (if w2.aliased then AddToHistory (getSrc w2) transaction
        else w2.tgt)
      split_ifs
      · exact Inv_AddToHistory (getSrc w2) transaction hw2src
      · exact hw2tgt
  have hw3get : Inv (getTgt w3) := by
    unfold getTgt
    split_ifs
    · exact hw3src
    · exact hw3tgt
  have hw4src : Inv w4.src := by
    show Inv (setTgt w3 (AddToHistory (getTgt w3) transaction)).src
    unfold setTgt
    split_ifs
    · exact Inv_AddToHistory (getTgt w3) transaction hw3get
    · exact hw3src
  have hw4tgt : Inv w4.tgt := by
    show Inv (setTgt w3 (AddToHistory (getTgt w3) transaction)).tgt
    unfold setTgt
    split_ifs
    · exact Inv_AddToHistory (getTgt w3) transaction hw3get
    · exact Inv_AddToHistory (getTgt w3) transaction hw3get
  split at h
  · injection h with hw hres
    subst hw
    exact ⟨h1, h2⟩
  split at h
  · injection h with hw hres
    subst hw
    exact ⟨h1, h2⟩
  split at h
  · injection h with hw hres
    subst hw
    exact ⟨h1, h2⟩
  split at h
  · injection h with hw hres
    subst hw
    exact ⟨h1, h2⟩
  split at h
  · injection h with hw hres
    subst hw
    exact ⟨h1, h2⟩
  split at h
  · injection h with hw hres
    subst hw
    exact ⟨hw1src, hw1tgt⟩
  split at h
  · injection h with hw hres
    subst hw
    exact ⟨hw1src, hw1tgt⟩
  split at h
  · injection h with hw hres
    subst hw
    refine ⟨hr3, ?_⟩
    show Inv (if w1.aliased then r3.1 else w1.tgt)
    split_ifs
    · exact hr3
    · exact hw1tgt
  · injection h with hw hres
    subst hw
    exact ⟨hw4src, hw4tgt⟩

/-- C4: starting from any state satisfying `balance ≥ 0 ∧ |history| ≤ 10`,
every sequence of `ChangeBal`, `AddToHistory` and pending-transaction
operations preserves the invariant, and so does `Pay` for both servers it
touches, on success and on every error path. -/
theorem c4_invariants_preserved :
    (∀ (s : Server) (ops : List ServerOp), Inv s → Inv (applyOps s ops)) ∧
    (∀ (g : Char → Bool) (ex : Server → Int → Bool → Int)
      (gid : GoString × Int) (w : PayWorld) (s t : GoString) (amt : Int)
      (lc rv : Bool) (w' : PayWorld) (res : Except PayErr Transaction),
      Pay g ex gid w s t amt lc rv = (w', res) →
      Inv w.src → Inv w.tgt → Inv w'.src ∧ Inv w'.tgt) :=
  ⟨fun s ops h => Inv_applyOps ops s h,
    fun g ex gid w s t amt lc rv w' res h h1 h2 =>
      Inv_Pay g ex gid w s t amt lc rv w' res h h1 h2⟩

/-- Witness for C4: a concrete operation sequence on `serverS` and the
concrete C3 payment preserve the invariant. -/
theorem c4_invariants_preserved_witness :
    Inv serverS ∧ Inv serverT ∧
    Inv (applyOps serverS [ServerOp.changeBal (-400),
      ServerOp.addToHistory tx9, ServerOp.removePending ['q'],
      ServerOp.rejectPending ['q']]) ∧
    (Inv c3w.src ∧ Inv c3w.tgt) :=
  ⟨by decide, by decide,
    c4_invariants_preserved.1 serverS [ServerOp.changeBal (-400),
      ServerOp.addToHistory tx9, ServerOp.removePending ['q'],
      ServerOp.rejectPending ['q']] (by decide),
    c4_invariants_preserved.2 allGraphic idRate genIdX
      ⟨serverS, serverT, false⟩ ['u'] ['v'] 300 false false c3w
      (Except.ok c3tx) (by decide) (by decide) (by decide)⟩

/-! ## C6 -/

/-- Counterexample to C6 as stated: the claim says the rune count is taken on
the string as given, before trimming.  `PasteuriseUsername` trims first
(part_003 line 76: `strings.Map(..., strings.Trim(username, " "))`), so a
source of one leading space followed by 48 letters — 49 runes as given —
passes the length check, and `Pay` proceeds to a later rejection
(`ERR_INVALIDAMOUNT` for the zero amount) instead of
`ERR_SOURCEUSERNAMETOOLONG`. -/
theorem c6_username_length_counterexample :
    48 < (' ' :: List.replicate 48 'a').length ∧
    (Pay allGraphic idRate genIdX ⟨serverS, serverT, false⟩
        (' ' :: List.replicate 48 'a') ['v'] 0 false false).2
      = Except.error PayErr.invalidAmount ∧
    (Pay allGraphic idRate genIdX ⟨serverS, serverT, false⟩
        (' ' :: List.replicate 48 'a') ['v'] 0 false false).2
      ≠ Except.error PayErr.sourceUsernameTooLong := by decide

/-- C6 as amended: `Pay` rejects with SOURCEUSERNAMETOOLONG exactly when the
source username exceeds 48 runes after leading and trailing spaces are
trimmed (the `�`-substitution preserves the count), with USERNAMETOOLONG
exactly when the source passes and the trimmed target exceeds 48 runes, and
on either rejection the two server objects are returned unchanged. -/
theorem c6_username_rejects_iff_trimmed_long (g : Char → Bool)
    (ex : Server → Int → Bool → Int) (gid : GoString × Int) (w : PayWorld)
    (s t : GoString) (amt : Int) (lc rv : Bool) (w' : PayWorld)
    (res : Except PayErr Transaction)
    (h : Pay g ex gid w s t amt lc rv = (w', res)) :
    (res = Except.error PayErr.sourceUsernameTooLong ↔
      48 < (trimSpaces s).length) ∧
    (res = Except.error PayErr.usernameTooLong ↔
      (trimSpaces s).length ≤ 48 ∧ 48 < (trimSpaces t).length) ∧
    (48 < (trimSpaces s).length ∨ 48 < (trimSpaces t).length → w' = w) := by
  unfold Pay at h
  lift_lets at h
  extract_lets p1 p2 amount r1 w1 receivedAmount r2 r3 w2 tx0 transaction w3 w4
    at h
  split at h
  case isTrue h1 =>
    injection h with hw hres
    subst hres
    refine ⟨iff_of_true rfl h1, ?_, fun _ => hw.symm⟩
    exact iff_of_false (by simp) (fun hc => absurd h1 (not_lt.2 hc.1))
  case isFalse h1 =>
  split at h
  case isTrue h2 =>
    injection h with hw hres
    subst hres
    exact ⟨iff_of_false (by simp) h1, iff_of_true rfl ⟨not_lt.1 h1, h2⟩,
      fun _ => hw.symm⟩
  case isFalse h2 =>
  have hns : ¬48 < (trimSpaces s).length := h1
  have hnt : ¬48 < (trimSpaces t).length := h2
  have hfalse : ¬(48 < (trimSpaces s).length ∨ 48 < (trimSpaces t).length) :=
    fun hc => hc.elim hns hnt
  repeat' split at h
  all_goals
    injection h with hw hres
  all_goals
    subst hres
  all_goals
    exact ⟨iff_of_false (by simp) hns,
      iff_of_false (by simp) (fun hc => hnt hc.2),
      fun hc => absurd hc hfalse⟩

/-- Witness for C6's amended statement at a 49-letter source username: the
call is rejected with SOURCEUSERNAMETOOLONG and the trimmed length indeed
exceeds 48. -/
theorem c6_username_rejects_iff_trimmed_long_witness :
    Pay allGraphic idRate genIdX ⟨serverS, serverT, false⟩
        (List.replicate 49 'a') ['v'] 100 false false
      = (⟨serverS, serverT, false⟩,
          Except.error PayErr.sourceUsernameTooLong) ∧
    ((Except.error PayErr.sourceUsernameTooLong :
        Except PayErr Transaction)
      = Except.error PayErr.sourceUsernameTooLong ↔
        48 < (trimSpaces (List.replicate 49 'a')).length) :=
  ⟨by decide,
    (c6_username_rejects_iff_trimmed_long allGraphic idRate genIdX
      ⟨serverS, serverT, false⟩ (List.replicate 49 'a') ['v'] 100 false false
      ⟨serverS, serverT, false⟩
      (Except.error PayErr.sourceUsernameTooLong) (by decide)).1⟩

end Lurkcoin
